import Mathlib

/-!
Verification of the HTML-to-rich-document translator in `src/app.py`
(class `HTMLToDocsParser`, functions `parse_html_for_docs` and
`HTMLToDocsParser.get_docs_requests`).

Embedding notes:
- The Python source reacts to a stream of events delivered by the standard
  HTML tokenizer (`handle_starttag`, `handle_endtag`, `handle_data`).  The
  handlers are embedded one-to-one as pure functions on an explicit
  `ParserState`; the tokenizer itself (standard-library code, not part of
  the repository) is embedded as `tokenize`, a simplified fuel-based
  tokenizer that splits `<...>` tags (with `name="value"` attributes) from
  character data, matching the library behaviour on the restricted tag
  vocabulary used here.  Universal theorems are stated over arbitrary event
  streams, which subsumes every tokenizer output.
- `self.tag_stack` (a Python list, appended at the end and searched from
  the end) is represented head-first: the head of `tag_stack` is the most
  recently pushed entry, so the source's backwards search is `popKind`.
- The type strings 'bold', 'italic', ... used by the source are the
  constructors of `Kind`; the Google-Docs request dictionaries are
  collapsed into the `DocsRequest` structure, keeping the `startIndex`,
  `endIndex` and style payload (`textStyle`) data.
- Python `None`-or-string values (`link_url`, attribute values, the text
  component returned by `parse_html_for_docs` on empty input) are
  `Option String`; Python string truthiness is `urlTruthy`.
- `self.current_pos` in the source is initialized to 0 and never used
  afterwards, so it is omitted from the state.
-/

/-- Style kinds, the `tag_type` strings of the source
('bold', 'italic', 'underline', 'link', 'heading2', 'heading3',
'blockquote'). -/
inductive Kind
  | bold
  | italic
  | underline
  | link
  | heading2
  | heading3
  | blockquote
deriving DecidableEq

/-- One entry of `self.formatting_ranges`: the dict
`{'type': ..., 'start': ..., 'end': ..., 'url': ...}`. -/
structure StyleRange where
  type : Kind
  start : Nat
  «end» : Nat
  url : Option String
deriving DecidableEq

/-- The mutable state of `HTMLToDocsParser` (`__init__`).  The head of
`tag_stack` is the most recently appended entry of the Python list. -/
structure ParserState where
  text : String
  formatting_ranges : List StyleRange
  tag_stack : List (Kind × Nat)
  link_url : Option String
deriving DecidableEq

/-- Initial state set up by `HTMLToDocsParser.__init__`. -/
def initState : ParserState :=
  { text := "", formatting_ranges := [], tag_stack := [], link_url := none }

/-- Embeds `self.text.endswith('\n')`: the last character of the buffer is
a newline. -/
def endswithNL (s : String) : Bool := s.data.getLast? == some '\n'

/-- Embeds `dict(attrs).get('href', '')`: the value of the last `href`
entry, `''` when the key is absent (`none` models a valueless attribute,
Python `None`). -/
def hrefOf (attrs : List (String × Option String)) : Option String :=
  ((attrs.reverse).lookup ("href")).getD (some (""))

/-- Embeds the search loop of `_close_tag`: scan the stack from the most
recent entry for the first entry of the given kind, returning its start
offset and the stack with that entry removed (`self.tag_stack.pop(i)`). -/
def popKind (k : Kind) : List (Kind × Nat) → Option (Nat × List (Kind × Nat))
  | [] => none
  | p :: rest =>
    if p.1 = k then some (p.2, rest)
    else
      match popKind k rest with
      | none => none
      | some q => some (q.1, p :: q.2)

/-- Embeds `HTMLToDocsParser._close_tag`. -/
def closeTag (st : ParserState) (tag_type : Kind) : ParserState :=
  match popKind tag_type st.tag_stack with
  | none => st
  | some q =>
    let e := st.text.length
    if e > q.1 then
      { st with
        tag_stack := q.2
        formatting_ranges := st.formatting_ranges ++
          [{ type := tag_type, start := q.1, «end» := e,
             url := if tag_type = Kind.link then st.link_url else none }] }
    else { st with tag_stack := q.2 }

/-- Embeds `HTMLToDocsParser.handle_starttag` (same branch order as the
source; note the source has no `div` branch here). -/
def handle_starttag (st : ParserState) (tag : String)
    (attrs : List (String × Option String)) : ParserState :=
  if tag = ("strong") ∨ tag = ("b") then
    { st with tag_stack := (Kind.bold, st.text.length) :: st.tag_stack }
  else if tag = ("em") ∨ tag = ("i") then
    { st with tag_stack := (Kind.italic, st.text.length) :: st.tag_stack }
  else if tag = ("u") then
    { st with tag_stack := (Kind.underline, st.text.length) :: st.tag_stack }
  else if tag = ("a") then
    { st with
      link_url := hrefOf attrs
      tag_stack := (Kind.link, st.text.length) :: st.tag_stack }
  else if tag = ("h2") then
    { st with tag_stack := (Kind.heading2, st.text.length) :: st.tag_stack }
  else if tag = ("h3") then
    { st with tag_stack := (Kind.heading3, st.text.length) :: st.tag_stack }
  else if tag = ("br") then
    { st with text := st.text ++ ("\n") }
  else if tag = ("p") then
    if st.text ≠ ("") ∧ endswithNL st.text = false then
      { st with text := st.text ++ ("\n") }
    else st
  else if tag = ("blockquote") then
    { st with tag_stack := (Kind.blockquote, st.text.length) :: st.tag_stack }
  else st

/-- Embeds the repeated fragment
`if not self.text.endswith('\n'): self.text += '\n'` of `handle_endtag`. -/
def forceNL (st : ParserState) : ParserState :=
  if endswithNL st.text then st else { st with text := st.text ++ ("\n") }

/-- Embeds `HTMLToDocsParser.handle_endtag` (same branch order as the
source). -/
def handle_endtag (st : ParserState) (tag : String) : ParserState :=
  if tag = ("strong") ∨ tag = ("b") then closeTag st Kind.bold
  else if tag = ("em") ∨ tag = ("i") then closeTag st Kind.italic
  else if tag = ("u") then closeTag st Kind.underline
  else if tag = ("a") then
    { closeTag st Kind.link with link_url := none }
  else if tag = ("h2") then forceNL (closeTag st Kind.heading2)
  else if tag = ("h3") then forceNL (closeTag st Kind.heading3)
  else if tag = ("p") ∨ tag = ("div") then forceNL st
  else if tag = ("blockquote") then forceNL (closeTag st Kind.blockquote)
  else st

/-- Embeds `HTMLToDocsParser.handle_data`. -/
def handle_data (st : ParserState) (data : String) : ParserState :=
  { st with text := st.text ++ data }

/-- One event delivered by the HTML tokenizer to the handlers. -/
inductive Event
  | starttag (tag : String) (attrs : List (String × Option String))
  | endtag (tag : String)
  | data (s : String)
deriving DecidableEq

/-- Dispatch of one tokenizer event to the corresponding handler. -/
def applyEvent (st : ParserState) (ev : Event) : ParserState :=
  match ev with
  | Event.starttag t attrs => handle_starttag st t attrs
  | Event.endtag t => handle_endtag st t
  | Event.data s => handle_data st s

/-- Run the handlers over a whole event stream from the initial state
(the effect of `parser.feed(html)` given the tokenized stream). -/
def feed (evs : List Event) : ParserState := evs.foldl applyEvent initState

/-- Whitespace test used by the tokenizer embedding. -/
def isWS (c : Char) : Bool := c == ' ' || c == '\n' || c == '\t' || c == '\r'

/-- Split a character list at the first occurrence of `c`, dropping it. -/
def splitAtChar (c : Char) : List Char → List Char × List Char
  | [] => ([], [])
  | x :: r =>
    if x = c then ([], r)
    else
      let p := splitAtChar c r
      (x :: p.1, p.2)

/-- Longest prefix not containing `c`; the rest (starting with `c`, if
present) is returned unconsumed. -/
def spanNot (c : Char) : List Char → List Char × List Char
  | [] => ([], [])
  | x :: r =>
    if x = c then ([], x :: r)
    else
      let p := spanNot c r
      (x :: p.1, p.2)

/-- Tag or unquoted-value token: characters up to the next whitespace. -/
def spanTagName : List Char → List Char × List Char
  | [] => ([], [])
  | x :: r =>
    if isWS x then ([], x :: r)
    else
      let p := spanTagName r
      (x :: p.1, p.2)

/-- Attribute-name token: characters up to `=` or whitespace. -/
def spanAttrName : List Char → List Char × List Char
  | [] => ([], [])
  | x :: r =>
    if x == '=' || isWS x then ([], x :: r)
    else
      let p := spanAttrName r
      (x :: p.1, p.2)

/-- Attribute parsing of the tokenizer (fuel-based; every step consumes at
least one character, so fuel equal to the input length is enough). -/
def parseAttrsAux : Nat → List Char → List (String × Option String)
  | 0, _ => []
  | _ + 1, [] => []
  | fuel + 1, c :: rest =>
    if isWS c then parseAttrsAux fuel rest
    else
      let p := spanAttrName (c :: rest)
      match p.2 with
      | '=' :: '"' :: r2 =>
        let q := splitAtChar '"' r2
        (String.mk p.1, some (String.mk q.1)) :: parseAttrsAux fuel q.2
      | '=' :: r1 =>
        let q := spanTagName r1
        (String.mk p.1, some (String.mk q.1)) :: parseAttrsAux fuel q.2
      | r1 => (String.mk p.1, none) :: parseAttrsAux fuel r1

/-- Attribute list of one tag, as handed to `handle_starttag`. -/
def parseAttrs (l : List Char) : List (String × Option String) :=
  parseAttrsAux l.length l

/-- Tag names are lowercased by the library tokenizer. -/
def lowerStr (s : String) : String := String.mk (s.data.map Char.toLower)

/-- Interpret the characters between `<` and `>` as one tag event. -/
def mkTagEvent (inside : List Char) : Event :=
  match inside with
  | '/' :: r =>
    let p := spanTagName r
    Event.endtag (lowerStr (String.mk p.1))
  | _ =>
    let p := spanTagName inside
    Event.starttag (lowerStr (String.mk p.1)) (parseAttrs p.2)

/-- Fuel-based scan of the input into tag and data events. -/
def tokenizeAux : Nat → List Char → List Event
  | 0, _ => []
  | _ + 1, [] => []
  | fuel + 1, c :: rest =>
    if c = '<' then
      let p := splitAtChar '>' rest
      mkTagEvent p.1 :: tokenizeAux fuel p.2
    else
      let p := spanNot '<' rest
      Event.data (String.mk (c :: p.1)) :: tokenizeAux fuel p.2

/-- Tokenize an HTML string into the event stream fed to the handlers. -/
def tokenize (s : String) : List Event := tokenizeAux s.data.length s.data

/-- Embeds `parse_html_for_docs`: empty or missing input short-circuits to
`(None, [])`; otherwise the string is fed through the parser and the
flattened text and collected ranges are returned.  (The Lean tokenizer is
total, so the source's `except` fallback path is unreachable here.) -/
def parse_html_for_docs (html_content : Option String) :
    Option String × List StyleRange :=
  match html_content with
  | none => (none, [])
  | some s =>
    if s = ("") then (none, [])
    else
      let parser := feed (tokenize s)
      (some parser.text, parser.formatting_ranges)

/-- Style payload of one `updateTextStyle` request produced by
`get_docs_requests` (the `textStyle`/`fields` dictionaries collapsed to
their informational content). -/
inductive TextStyle
  | bold
  | italic
  | underline
  | link (url : String)
  | heading2
  | heading3
deriving DecidableEq

/-- One `updateTextStyle` request dictionary:
`range.startIndex`, `range.endIndex` and the style payload. -/
structure DocsRequest where
  startIndex : Int
  endIndex : Int
  style : TextStyle
deriving DecidableEq

/-- Python truthiness of the `url` field (`None` and `''` are falsy). -/
def urlTruthy : Option String → Bool
  | none => false
  | some s => s != ""

/-- The body of the `for fmt in self.formatting_ranges` loop of
`get_docs_requests` (the source's if/elif chain on `fmt['type']`,
the `link` arm guarded by the truthiness of `fmt['url']`): the requests
(zero or one) appended for one range.  In the `link` arm `fmt.url.getD ""`
is the string payload of `{'url': fmt['url']}` (there `fmt['url']` is a
truthy string, so `getD` only converts the type). -/
def fmt_request (start_index : Int) (fmt : StyleRange) : List DocsRequest :=
  let start := start_index + (fmt.start : Int)
  let e := start_index + (fmt.«end» : Int)
  if fmt.type = Kind.bold then
    [{ startIndex := start, endIndex := e, style := TextStyle.bold }]
  else if fmt.type = Kind.italic then
    [{ startIndex := start, endIndex := e, style := TextStyle.italic }]
  else if fmt.type = Kind.underline then
    [{ startIndex := start, endIndex := e, style := TextStyle.underline }]
  else if fmt.type = Kind.link ∧ urlTruthy fmt.url then
    [{ startIndex := start, endIndex := e, style := TextStyle.link (fmt.url.getD ("")) }]
  else if fmt.type = Kind.heading2 then
    [{ startIndex := start, endIndex := e, style := TextStyle.heading2 }]
  else if fmt.type = Kind.heading3 then
    [{ startIndex := start, endIndex := e, style := TextStyle.heading3 }]
  else []

/-- Embeds `HTMLToDocsParser.get_docs_requests`, processing the collected
ranges in order. -/
def get_docs_requests (start_index : Int) : List StyleRange → List DocsRequest
  | [] => []
  | fmt :: rest => fmt_request start_index fmt ++ get_docs_requests start_index rest

/-- A range produces exactly one request unless it is a `blockquote` range
(no branch in the source) or a `link` range whose url is falsy. -/
def produces_operation (r : StyleRange) : Bool :=
  !(r.type == Kind.blockquote) && !(r.type == Kind.link && !(urlTruthy r.url))

/-- Stack ordering used by the parser invariant: entries deeper in the
stack were pushed at earlier (smaller or equal) buffer offsets. -/
def stackRel (a b : Kind × Nat) : Prop := b.2 ≤ a.2

/-- Invariant maintained by every handler: stack offsets are bounded by
the buffer length and sorted (newest first), emitted ranges are non-empty
and inside the buffer, pending same-kind stack entries never start
strictly inside an emitted range of that kind, and emitted same-kind
ranges are pairwise disjoint or nested. -/
structure ParserInv (st : ParserState) : Prop where
  stackLe : ∀ p ∈ st.tag_stack, p.2 ≤ st.text.length
  stackSorted : st.tag_stack.Pairwise stackRel
  rangesWf : ∀ r ∈ st.formatting_ranges, r.start < r.«end» ∧ r.«end» ≤ st.text.length
  separated : ∀ r ∈ st.formatting_ranges, ∀ p ∈ st.tag_stack, p.1 = r.type →
    p.2 ≤ r.start ∨ r.«end» ≤ p.2
  laminar : ∀ r1 ∈ st.formatting_ranges, ∀ r2 ∈ st.formatting_ranges,
    r1.type = r2.type →
      r1.«end» ≤ r2.start ∨ r2.«end» ≤ r1.start ∨
        (r1.start ≤ r2.start ∧ r2.«end» ≤ r1.«end») ∨
        (r2.start ≤ r1.start ∧ r1.«end» ≤ r2.«end»)

/-! Helper lemmas about `popKind` and invariant preservation. -/

theorem popKind_sublist {k : Kind} :
    ∀ {stk : List (Kind × Nat)} {s : Nat} {stk' : List (Kind × Nat)},
      popKind k stk = some (s, stk') → List.Sublist stk' stk := by
  intro stk
  induction stk with
  | nil => intro s stk' h; simp [popKind] at h
  | cons hd tl ih =>
    intro s stk' h
    unfold popKind at h
    by_cases hk : hd.1 = k
    · rw [if_pos hk] at h
      cases h
      exact List.sublist_cons_self hd tl
    · rw [if_neg hk] at h
      cases hp : popKind k tl with
      | none => rw [hp] at h; cases h
      | some q =>
        rw [hp] at h
        cases h
        exact List.Sublist.cons₂ hd (ih hp)

theorem popKind_mem {k : Kind} :
    ∀ {stk : List (Kind × Nat)} {s : Nat} {stk' : List (Kind × Nat)},
      popKind k stk = some (s, stk') → (k, s) ∈ stk := by
  intro stk
  induction stk with
  | nil => intro s stk' h; simp [popKind] at h
  | cons hd tl ih =>
    intro s stk' h
    unfold popKind at h
    by_cases hk : hd.1 = k
    · rw [if_pos hk] at h
      cases h
      have : (k, hd.2) = hd := by
        cases hd; simp_all
      rw [this]
      exact List.mem_cons_self hd tl
    · rw [if_neg hk] at h
      cases hp : popKind k tl with
      | none => rw [hp] at h; cases h
      | some q =>
        rw [hp] at h
        cases h
        exact List.mem_cons_of_mem hd (ih hp)

theorem popKind_le_of_kind {k : Kind} :
    ∀ {stk : List (Kind × Nat)} {s : Nat} {stk' : List (Kind × Nat)},
      stk.Pairwise stackRel → popKind k stk = some (s, stk') →
      ∀ p ∈ stk', p.1 = k → p.2 ≤ s := by
  intro stk
  induction stk with
  | nil => intro s stk' _ h; simp [popKind] at h
  | cons hd tl ih =>
    intro s stk' hs h p hp hpk
    unfold popKind at h
    by_cases hk : hd.1 = k
    · rw [if_pos hk] at h
      cases h
      exact (List.pairwise_cons.1 hs).1 p hp
    · rw [if_neg hk] at h
      cases hq : popKind k tl with
      | none => rw [hq] at h; cases h
      | some q =>
        rw [hq] at h
        cases h
        rcases List.mem_cons.1 hp with rfl | hmem
        · exact absurd hpk hk
        · exact ih (List.pairwise_cons.1 hs).2 hq p hmem hpk

theorem text_le_append (s d : String) : s.length ≤ (s ++ d).length := by
  rw [String.length_append]
  omega

theorem inv_setText (st : ParserState) (d : String) (h : ParserInv st) :
    ParserInv { st with text := st.text ++ d } := by
  have hlen := text_le_append st.text d
  exact ⟨fun p hp => le_trans (h.stackLe p hp) hlen,
    h.stackSorted,
    fun r hr => ⟨(h.rangesWf r hr).1, le_trans (h.rangesWf r hr).2 hlen⟩,
    h.separated, h.laminar⟩

theorem inv_setLink (st : ParserState) (u : Option String) (h : ParserInv st) :
    ParserInv { st with link_url := u } :=
  ⟨h.stackLe, h.stackSorted, h.rangesWf, h.separated, h.laminar⟩

theorem inv_push (st : ParserState) (k : Kind) (h : ParserInv st) :
    ParserInv { st with tag_stack := (k, st.text.length) :: st.tag_stack } := by
  refine ⟨?_, ?_, h.rangesWf, ?_, h.laminar⟩
  · intro p hp
    rcases List.mem_cons.1 hp with rfl | hmem
    · exact le_refl _
    · exact h.stackLe p hmem
  · exact List.pairwise_cons.2 ⟨fun b hb => h.stackLe b hb, h.stackSorted⟩
  · intro r hr p hp hpk
    rcases List.mem_cons.1 hp with rfl | hmem
    · exact Or.inr (h.rangesWf r hr).2
    · exact h.separated r hr p hmem hpk

theorem inv_forceNL (st : ParserState) (h : ParserInv st) :
    ParserInv (forceNL st) := by
  unfold forceNL
  split
  · exact h
  · exact inv_setText st _ h

theorem inv_closeTag (st : ParserState) (k : Kind) (h : ParserInv st) :
    ParserInv (closeTag st k) := by
  unfold closeTag
  cases hp : popKind k st.tag_stack with
  | none => exact h
  | some q =>
    simp only
    have hsub := popKind_sublist hp
    have hmemq := popKind_mem hp
    by_cases he : st.text.length > q.1
    · rw [if_pos he]
      refine ⟨?_, ?_, ?_, ?_, ?_⟩
      · intro p hpm
        exact h.stackLe p (hsub.subset hpm)
      · exact h.stackSorted.sublist hsub
      · intro r hr
        rcases List.mem_append.1 hr with hr1 | hr2
        · exact h.rangesWf r hr1
        · rcases List.mem_singleton.1 hr2 with rfl
          exact ⟨he, le_refl _⟩
      · intro r hr p hpm hpk
        rcases List.mem_append.1 hr with hr1 | hr2
        · exact h.separated r hr1 p (hsub.subset hpm) hpk
        · rcases List.mem_singleton.1 hr2 with rfl
          exact Or.inl (popKind_le_of_kind h.stackSorted hp p hpm hpk)
      · intro r1 h1 r2 h2 hk
        rcases List.mem_append.1 h1 with h1o | h1n
        · rcases List.mem_append.1 h2 with h2o | h2n
          · exact h.laminar r1 h1o r2 h2o hk
          · rcases List.mem_singleton.1 h2n with rfl
            have hks : (k, q.1).1 = r1.type := hk.symm
            rcases h.separated r1 h1o (k, q.1) hmemq hks with hle | hge
            · exact Or.inr (Or.inr (Or.inr ⟨hle, (h.rangesWf r1 h1o).2⟩))
            · exact Or.inl hge
        · rcases List.mem_singleton.1 h1n with rfl
          rcases List.mem_append.1 h2 with h2o | h2n
          · have hks : (k, q.1).1 = r2.type := hk
            rcases h.separated r2 h2o (k, q.1) hmemq hks with hle | hge
            · exact Or.inr (Or.inr (Or.inl ⟨hle, (h.rangesWf r2 h2o).2⟩))
            · exact Or.inr (Or.inl hge)
          · rcases List.mem_singleton.1 h2n with rfl
            exact Or.inr (Or.inr (Or.inl ⟨le_refl _, le_refl _⟩))
    · rw [if_neg he]
      refine ⟨?_, ?_, h.rangesWf, ?_, h.laminar⟩
      · intro p hpm
        exact h.stackLe p (hsub.subset hpm)
      · exact h.stackSorted.sublist hsub
      · intro r hr p hpm hpk
        exact h.separated r hr p (hsub.subset hpm) hpk

theorem inv_handle_starttag (st : ParserState) (tag : String)
    (attrs : List (String × Option String)) (h : ParserInv st) :
    ParserInv (handle_starttag st tag attrs) := by
  unfold handle_starttag
  split_ifs
  · exact inv_push st Kind.bold h
  · exact inv_push st Kind.italic h
  · exact inv_push st Kind.underline h
  · exact inv_push { st with link_url := hrefOf attrs } Kind.link
      (inv_setLink st (hrefOf attrs) h)
  · exact inv_push st Kind.heading2 h
  · exact inv_push st Kind.heading3 h
  · exact inv_setText st _ h
  · exact inv_setText st _ h
  · exact h
  · exact inv_push st Kind.blockquote h
  · exact h

theorem inv_handle_endtag (st : ParserState) (tag : String) (h : ParserInv st) :
    ParserInv (handle_endtag st tag) := by
  unfold handle_endtag
  split_ifs
  · exact inv_closeTag st Kind.bold h
  · exact inv_closeTag st Kind.italic h
  · exact inv_closeTag st Kind.underline h
  · exact inv_setLink (closeTag st Kind.link) none (inv_closeTag st Kind.link h)
  · exact inv_forceNL (closeTag st Kind.heading2) (inv_closeTag st Kind.heading2 h)
  · exact inv_forceNL (closeTag st Kind.heading3) (inv_closeTag st Kind.heading3 h)
  · exact inv_forceNL st h
  · exact inv_forceNL (closeTag st Kind.blockquote) (inv_closeTag st Kind.blockquote h)
  · exact h

theorem inv_applyEvent (st : ParserState) (ev : Event) (h : ParserInv st) :
    ParserInv (applyEvent st ev) := by
  cases ev with
  | starttag t attrs => exact inv_handle_starttag st t attrs h
  | endtag t => exact inv_handle_endtag st t h
  | data s => exact inv_setText st s h

theorem inv_foldl : ∀ (evs : List Event) (st : ParserState),
    ParserInv st → ParserInv (evs.foldl applyEvent st) := by
  intro evs
  induction evs with
  | nil => intro st h; exact h
  | cons e rest ih =>
    intro st h
    exact ih (applyEvent st e) (inv_applyEvent st e h)

theorem inv_init : ParserInv initState := by
  refine ⟨?_, ?_, ?_, ?_, ?_⟩ <;> simp [initState]

theorem feed_inv (evs : List Event) : ParserInv (feed evs) :=
  inv_foldl evs initState inv_init

theorem closeTag_text (st : ParserState) (k : Kind) :
    (closeTag st k).text = st.text := by
  unfold closeTag
  cases popKind k st.tag_stack with
  | none => rfl
  | some q =>
    simp only
    split <;> rfl

theorem closeTag_ranges (st : ParserState) (k : Kind) :
    (closeTag st k).formatting_ranges = st.formatting_ranges ∨
    ∃ s0, s0 < st.text.length ∧
      (closeTag st k).formatting_ranges = st.formatting_ranges ++
        [{ type := k, start := s0, «end» := st.text.length,
           url := if k = Kind.link then st.link_url else none }] := by
  unfold closeTag
  cases hp : popKind k st.tag_stack with
  | none => exact Or.inl rfl
  | some q =>
    simp only
    by_cases he : st.text.length > q.1
    · rw [if_pos he]
      exact Or.inr ⟨q.1, he, rfl⟩
    · rw [if_neg he]
      exact Or.inl rfl

theorem forceNL_text (st : ParserState) :
    (forceNL st).text = (if endswithNL st.text then st.text else st.text ++ ("\n")) := by
  unfold forceNL
  split <;> simp_all

theorem forceNL_ranges (st : ParserState) :
    (forceNL st).formatting_ranges = st.formatting_ranges := by
  unfold forceNL
  split <;> rfl

theorem endswithNL_append (s : String) : endswithNL (s ++ ("\n")) = true := by
  unfold endswithNL
  have : (s ++ ("\n")).data = s.data ++ ['\n'] := rfl
  rw [this, List.getLast?_concat]
  rfl

theorem endswithNL_forceNL (st : ParserState) :
    endswithNL (forceNL st).text = true := by
  unfold forceNL
  by_cases hc : endswithNL st.text
  · rw [if_pos hc]
    exact hc
  · rw [if_neg hc]
    exact endswithNL_append st.text

theorem handle_endtag_a (st : ParserState) :
    handle_endtag st ("a") = { closeTag st Kind.link with link_url := none } := rfl

theorem handle_endtag_h2 (st : ParserState) :
    handle_endtag st ("h2") = forceNL (closeTag st Kind.heading2) := rfl

theorem handle_endtag_h3 (st : ParserState) :
    handle_endtag st ("h3") = forceNL (closeTag st Kind.heading3) := rfl

theorem handle_endtag_p (st : ParserState) :
    handle_endtag st ("p") = forceNL st := rfl

theorem handle_endtag_div (st : ParserState) :
    handle_endtag st ("div") = forceNL st := rfl

theorem fmt_request_shift (b c : Int) (fmt : StyleRange) :
    fmt_request (b + c) fmt =
      (fmt_request b fmt).map
        (fun op => { startIndex := op.startIndex + c, endIndex := op.endIndex + c,
                     style := op.style }) := by
  unfold fmt_request
  split_ifs <;> simp <;> omega

theorem fmt_request_abs (b : Int) (fmt : StyleRange) :
    ∀ op ∈ fmt_request b fmt,
      op.startIndex = b + (fmt.start : Int) ∧ op.endIndex = b + (fmt.«end» : Int) := by
  intro op hop
  unfold fmt_request at hop
  split_ifs at hop <;> simp at hop <;> subst hop <;> exact ⟨rfl, rfl⟩

theorem fmt_request_count (b : Int) (fmt : StyleRange) :
    (fmt_request b fmt).length = (if produces_operation fmt then 1 else 0) := by
  unfold fmt_request
  split_ifs with h1 h2 h3 h4 h5 h6 <;>
    simp_all [produces_operation, urlTruthy]
  cases hty : fmt.type <;> simp_all [produces_operation]

theorem get_docs_requests_append (b : Int) (rs1 rs2 : List StyleRange) :
    get_docs_requests b (rs1 ++ rs2)
      = get_docs_requests b rs1 ++ get_docs_requests b rs2 := by
  induction rs1 with
  | nil => rfl
  | cons f rest ih => simp [get_docs_requests, ih]

theorem get_docs_requests_shift (b c : Int) (rs : List StyleRange) :
    get_docs_requests (b + c) rs
      = (get_docs_requests b rs).map
          (fun op => { startIndex := op.startIndex + c, endIndex := op.endIndex + c,
                       style := op.style }) := by
  induction rs with
  | nil => rfl
  | cons f rest ih =>
    simp only [get_docs_requests, List.map_append, ih, fmt_request_shift]

theorem get_docs_requests_abs (b : Int) (rs : List StyleRange) :
    ∀ op ∈ get_docs_requests b rs,
      ∃ r ∈ rs, op.startIndex = b + (r.start : Int) ∧
        op.endIndex = b + (r.«end» : Int) := by
  induction rs with
  | nil => intro op hop; simp [get_docs_requests] at hop
  | cons f rest ih =>
    intro op hop
    rcases List.mem_append.1 hop with hf | hrest
    · exact ⟨f, List.mem_cons_self f rest, fmt_request_abs b f op hf⟩
    · obtain ⟨r, hrmem, hfacts⟩ := ih op hrest
      exact ⟨r, List.mem_cons_of_mem f hrmem, hfacts⟩

theorem get_docs_requests_length (b : Int) (rs : List StyleRange) :
    (get_docs_requests b rs).length = (rs.filter produces_operation).length := by
  induction rs with
  | nil => rfl
  | cons f rest ih =>
    by_cases hp : produces_operation f
    · simp [get_docs_requests, List.length_append, fmt_request_count, ih,
        List.filter_cons, hp]
      omega
    · simp [get_docs_requests, List.length_append, fmt_request_count, ih,
        List.filter_cons, hp]

theorem parse_some (html : String) (h : ¬ html = ("")) :
    parse_html_for_docs (some html)
      = (some (feed (tokenize html)).text, (feed (tokenize html)).formatting_ranges) := by
  simp [parse_html_for_docs, h]

/-! Claim theorems. -/

/-- Claim C1 counterexample: on the nested same-kind input
`<b>a<b>b</b>c</b>` the parser emits the two bold ranges [1,2) and [0,3),
and their offset intervals overlap (1 < 3 and 0 < 2), contradicting the
claim that same-kind ranges never overlap. -/
theorem nested_same_kind_ranges_overlap :
    (parse_html_for_docs (some ("<b>a<b>b</b>c</b>"))).2
        = [{ type := Kind.bold, start := 1, «end» := 2, url := none },
           { type := Kind.bold, start := 0, «end» := 3, url := none }] ∧
      ((1 : Nat) < 3 ∧ (0 : Nat) < 2) :=
  ⟨rfl, by omega, by omega⟩

/-- Claim C1 (amended): same-kind ranges can overlap (nested same-kind
tags yield nested ranges), but they never overlap partially: for every
input string, any two same-kind ranges emitted by parse are either
disjoint or one contains the other.  Different kinds are unrestricted. -/
theorem same_kind_ranges_laminar (html : String) (r1 r2 : StyleRange)
    (h1 : r1 ∈ (parse_html_for_docs (some html)).2)
    (h2 : r2 ∈ (parse_html_for_docs (some html)).2)
    (hk : r1.type = r2.type) :
    r1.«end» ≤ r2.start ∨ r2.«end» ≤ r1.start ∨
      (r1.start ≤ r2.start ∧ r2.«end» ≤ r1.«end») ∨
      (r2.start ≤ r1.start ∧ r1.«end» ≤ r2.«end») := by
  by_cases hh : html = ("")
  · subst hh
    simp [parse_html_for_docs] at h1
  · rw [parse_some html hh] at h1 h2
    exact (feed_inv (tokenize html)).laminar r1 h1 r2 h2 hk

/-- Witness for the amended C1 theorem at the nested-bold input: the two
bold ranges [1,2) and [0,3) fall in the nested case. -/
theorem same_kind_ranges_laminar_witness :
    (2 : Nat) ≤ 0 ∨ (3 : Nat) ≤ 1 ∨ ((1 : Nat) ≤ 0 ∧ (3 : Nat) ≤ 2) ∨
      ((0 : Nat) ≤ 1 ∧ (2 : Nat) ≤ 3) :=
  same_kind_ranges_laminar ("<b>a<b>b</b>c</b>")
    { type := Kind.bold, start := 1, «end» := 2, url := none }
    { type := Kind.bold, start := 0, «end» := 3, url := none }
    (List.mem_cons_self _ _)
    (List.mem_cons_of_mem _ (List.mem_cons_self _ _))
    rfl

/-- Claim C2: for every HTML input that parse accepts, every emitted style
range r satisfies 0 ≤ r.start < r.end ≤ length of the flattened text
(zero-length ranges are never emitted). -/
theorem ranges_within_text_bounds (html : String) (r : StyleRange)
    (hr : r ∈ (parse_html_for_docs (some html)).2) :
    0 ≤ r.start ∧ r.start < r.«end» ∧
      ∃ t, (parse_html_for_docs (some html)).1 = some t ∧ r.«end» ≤ t.length := by
  by_cases hh : html = ("")
  · subst hh
    simp [parse_html_for_docs] at hr
  · rw [parse_some html hh] at hr
    obtain ⟨hlt, hle⟩ := (feed_inv (tokenize html)).rangesWf r hr
    refine ⟨Nat.zero_le _, hlt, (feed (tokenize html)).text, ?_, hle⟩
    rw [parse_some html hh]

/-- Witness for the C2 theorem at input `<b>x</b>` and its bold range
[0,1). -/
theorem ranges_within_text_bounds_witness :
    (0 : Nat) ≤ 0 ∧ (0 : Nat) < 1 ∧
      ∃ t, (parse_html_for_docs (some ("<b>x</b>"))).1 = some t ∧ 1 ≤ t.length :=
  ranges_within_text_bounds ("<b>x</b>")
    { type := Kind.bold, start := 0, «end» := 1, url := none }
    (List.mem_cons_self _ _)

/-- Claim C3 counterexample: parse on the empty string succeeds but
returns None (the Python null) as the text component, not the empty
string the claim states. -/
theorem empty_input_text_is_none :
    (parse_html_for_docs (some (""))).1 = none ∧
      ¬ (parse_html_for_docs (some (""))).1 = some ("") :=
  ⟨rfl, fun h => Option.noConfusion h⟩

/-- Claim C3 (amended): parse("") and parse(None) both succeed without
error and both return the degenerate pair (None, []): the ranges list is
empty as claimed, but the text component is the null value None rather
than the empty string. -/
theorem empty_and_none_input_result :
    parse_html_for_docs none = (none, []) ∧
      parse_html_for_docs (some ("")) = (none, []) :=
  ⟨rfl, rfl⟩

/-- Claim C4 counterexample: a `<div>` opening tag never appends a newline
(`handle_starttag` has no div branch): on `a<div>b` the buffer is
non-empty and does not end in a newline, yet the text stays "ab" instead
of the claimed "a\nb". -/
theorem div_open_adds_no_newline :
    (parse_html_for_docs (some ("a<div>b"))).1 = some ("ab") ∧
      ¬ (parse_html_for_docs (some ("a<div>b"))).1 = some ("a\nb") :=
  ⟨rfl, fun h => by
    have hne : ("ab") ≠ ("a\nb") := by decide
    exact hne (Option.some.inj h)⟩

/-- Claim C4 (amended): on a `<p>` opening tag exactly one newline is
appended when the buffer is non-empty and does not already end in a
newline, and nothing otherwise; a `<div>` opening tag changes nothing at
all (only `</div>` appends a newline). -/
theorem p_open_newline_div_open_noop :
    (∀ (st : ParserState) (attrs : List (String × Option String)),
      handle_starttag st ("p") attrs
          = (if st.text ≠ ("") ∧ endswithNL st.text = false then
              { st with text := st.text ++ ("\n") }
            else st) ∧
        handle_starttag st ("div") attrs = st) ∧
      parse_html_for_docs (some ("a<p>b")) = (some ("a\nb"), []) :=
  ⟨fun _ _ => ⟨rfl, rfl⟩, rfl⟩

/-- Claim C5: the parser tracks exactly one current link URL: every `<a>`
opening tag overwrites it with the href lookup, every `</a>` closing tag
clears it, and a link range emitted at `</a>` captures the value current
at that moment.  On the nested-link input the inner range carries the
last-opened URL "u2" for its whole span, while the outer range closes
after the clear and captures None. -/
theorem link_url_tracking :
    (∀ (st : ParserState) (attrs : List (String × Option String)),
      (handle_starttag st ("a") attrs).link_url = hrefOf attrs ∧
        (handle_endtag st ("a")).link_url = none ∧
        ((handle_endtag st ("a")).formatting_ranges = st.formatting_ranges ∨
          ∃ s0, (handle_endtag st ("a")).formatting_ranges
              = st.formatting_ranges ++
                [{ type := Kind.link, start := s0, «end» := st.text.length,
                   url := st.link_url }])) ∧
      parse_html_for_docs (some ("<a href=\"u1\">x<a href=\"u2\">y</a>z</a>"))
        = (some ("xyz"),
           [{ type := Kind.link, start := 1, «end» := 2, url := some ("u2") },
            { type := Kind.link, start := 0, «end» := 3, url := none }]) := by
  constructor
  · intro st attrs
    refine ⟨rfl, rfl, ?_⟩
    rcases closeTag_ranges st Kind.link with h | ⟨s0, _, h⟩
    · exact Or.inl h
    · exact Or.inr ⟨s0, h⟩
  · rfl

/-- Claim C6: start tags never emit a range, so stack entries left
unclosed at end of input contribute nothing; in particular the unbalanced
input `<strong>bold text` parses without error to the text "bold text"
with an empty ranges list. -/
theorem unclosed_tags_discarded :
    (∀ (st : ParserState) (tag : String) (attrs : List (String × Option String)),
      (handle_starttag st tag attrs).formatting_ranges = st.formatting_ranges) ∧
      parse_html_for_docs (some ("<strong>bold text")) = (some ("bold text"), []) := by
  constructor
  · intro st tag attrs
    unfold handle_starttag
    split_ifs <;> rfl
  · rfl

/-- Claim C7: closing `</h2>` (or `</h3>`) leaves the buffer ending in a
newline, and any range emitted by that close ends at the buffer length
before the newline is appended; in particular `<h2>Title</h2>Body` yields
the text "Title\nBody" with exactly one heading-2 range [0,5) covering
exactly the substring "Title". -/
theorem heading_close_newline_after_range :
    (∀ st : ParserState,
      endswithNL (handle_endtag st ("h2")).text = true ∧
        endswithNL (handle_endtag st ("h3")).text = true ∧
        ((handle_endtag st ("h2")).formatting_ranges = st.formatting_ranges ∨
          ∃ s0, s0 < st.text.length ∧
            (handle_endtag st ("h2")).formatting_ranges
              = st.formatting_ranges ++
                [{ type := Kind.heading2, start := s0, «end» := st.text.length,
                   url := none }])) ∧
      parse_html_for_docs (some ("<h2>Title</h2>Body"))
          = (some ("Title\nBody"),
             [{ type := Kind.heading2, start := 0, «end» := 5, url := none }]) ∧
        ("Title\nBody").data.take 5 = ("Title").data := by
  refine ⟨?_, rfl, rfl⟩
  intro st
  refine ⟨?_, ?_, ?_⟩
  · rw [handle_endtag_h2]
    exact endswithNL_forceNL _
  · rw [handle_endtag_h3]
    exact endswithNL_forceNL _
  · have hr : (handle_endtag st ("h2")).formatting_ranges
        = (closeTag st Kind.heading2).formatting_ranges := by
      rw [handle_endtag_h2, forceNL_ranges]
    rcases closeTag_ranges st Kind.heading2 with h | ⟨s0, hlt, h⟩
    · exact Or.inl (hr.trans h)
    · exact Or.inr ⟨s0, hlt, hr.trans h⟩

/-- Claim C8: each collected range yields exactly one style request,
except blockquote ranges (no arm in the source) and link ranges whose url
is falsy, which yield none; in particular `<a>click</a>` (no href)
produces no request while the text still reads "click". -/
theorem requests_per_range_mapping :
    ((parse_html_for_docs (some ("<a>click</a>"))).1 = some ("click") ∧
      get_docs_requests 1 (parse_html_for_docs (some ("<a>click</a>"))).2 = []) ∧
      ∀ (rs : List StyleRange) (b : Int),
        (get_docs_requests b rs).length = (rs.filter produces_operation).length :=
  ⟨⟨rfl, rfl⟩, fun rs b => get_docs_requests_length b rs⟩

/-- Claim C9: get_docs_requests is total and deterministic by
construction; it is compositional in the list order of the ranges,
shifting the base offset shifts every emitted request by exactly that
amount, every emitted request's bounds are exactly the source range's
bounds plus the base offset, and base offset 1 is the plus-one shift of
base offset 0. -/
theorem requests_shift_and_order :
    (∀ (rs : List StyleRange) (b c : Int),
      get_docs_requests (b + c) rs
        = (get_docs_requests b rs).map
            (fun op => { startIndex := op.startIndex + c, endIndex := op.endIndex + c,
                         style := op.style })) ∧
      (∀ (rs1 rs2 : List StyleRange) (b : Int),
        get_docs_requests b (rs1 ++ rs2)
          = get_docs_requests b rs1 ++ get_docs_requests b rs2) ∧
      (∀ (rs : List StyleRange) (b : Int), ∀ op ∈ get_docs_requests b rs,
        ∃ r ∈ rs, op.startIndex = b + (r.start : Int) ∧
          op.endIndex = b + (r.«end» : Int)) ∧
      (∀ rs : List StyleRange,
        get_docs_requests 1 rs
          = (get_docs_requests 0 rs).map
              (fun op => { startIndex := op.startIndex + 1, endIndex := op.endIndex + 1,
                           style := op.style })) := by
  refine ⟨fun rs b c => get_docs_requests_shift b c rs,
    fun rs1 rs2 b => get_docs_requests_append b rs1 rs2,
    fun rs b => get_docs_requests_abs b rs, fun rs => ?_⟩
  have h := get_docs_requests_shift 0 1 rs
  rw [zero_add] at h
  exact h

/-- Witness for the C9 theorem: on the single bold range [2,4) with base
offset 5, the emitted request [7,9) is that range shifted by 5. -/
theorem requests_shift_and_order_witness :
    ∃ r ∈ [({ type := Kind.bold, start := 2, «end» := 4, url := none } : StyleRange)],
      ({ startIndex := 7, endIndex := 9, style := TextStyle.bold } : DocsRequest).startIndex
          = 5 + (r.start : Int) ∧
        ({ startIndex := 7, endIndex := 9, style := TextStyle.bold } : DocsRequest).endIndex
          = 5 + (r.«end» : Int) :=
  requests_shift_and_order.2.2.1
    [{ type := Kind.bold, start := 2, «end» := 4, url := none }] 5
    { startIndex := 7, endIndex := 9, style := TextStyle.bold }
    (List.mem_cons_self _ _)

/-- Claim C10: closing `</p>` or `</div>` appends a newline exactly when
the buffer does not already end in one — including an empty buffer and
with no matching opening tag — and never touches the ranges; in
particular the input `</div>` alone yields the text "\n" and no ranges. -/
theorem p_div_close_newline :
    (∀ st : ParserState,
      (handle_endtag st ("p")).text
          = (if endswithNL st.text then st.text else st.text ++ ("\n")) ∧
        (handle_endtag st ("div")).text
          = (if endswithNL st.text then st.text else st.text ++ ("\n")) ∧
        (handle_endtag st ("p")).formatting_ranges = st.formatting_ranges ∧
        (handle_endtag st ("div")).formatting_ranges = st.formatting_ranges) ∧
      parse_html_for_docs (some ("</div>")) = (some ("\n"), []) := by
  refine ⟨?_, rfl⟩
  intro st
  refine ⟨?_, ?_, ?_, ?_⟩
  · rw [handle_endtag_p, forceNL_text]
  · rw [handle_endtag_div, forceNL_text]
  · rw [handle_endtag_p, forceNL_ranges]
  · rw [handle_endtag_div, forceNL_ranges]
